import Mathlib

/-!
Verification of the `home-ci-reporter` command-line tool (Go) against its
natural-language specification.

The development is a shallow embedding of the program's pure core:

* `main.go` defines the report lifecycle: `initReport`, `addStep`,
  `finalizeReport`, `readReport`, `writeReport`, `getEnvOrDefault`.
* The extended source file adds `extractArtifacts` (base64 artifact
  extraction from a CI payload).

Modelling conventions:

* Go `time.Time` values are modelled as `Int` nanoseconds since the epoch
  (UTC).  `time.Duration` is likewise `Int` nanoseconds.
  `int(d.Seconds())` — float conversion followed by Go's `int()` truncation
  toward zero — is modelled by `Int.tdiv` on nanoseconds, which is exact for
  every duration whose magnitude stays below 2^53 nanoseconds, far beyond
  any realistic test-run length.
* The `successRate` computation is floating point.  Binary64 doubles are
  embedded exactly as dyadic rationals `m * 2^f`; each Go operation
  (int-to-float conversion, division, multiplication by 100) is followed by
  `float64Round`, the 53-bit round-to-nearest-ties-to-even, and the `%.0f`
  verb prints the resulting double rounded to the nearest integer, ties to
  even.  The model's exponent is unbounded, which coincides with IEEE
  binary64 wherever no overflow or subnormal underflow occurs — in
  particular for all counts `0 ≤ passed ≤ total < 2^53` arising here, whose
  intermediate values lie in `[2^-53, 100]`.
* Go slices are modelled as `List`: a `nil` slice (e.g. the `Steps` field
  after unmarshalling a document with no `steps` key) and an empty slice
  are both `[]`, matching the fact that `append` and `len` do not
  distinguish them.
* The effectful shells of the commands (`os.ReadFile`, `os.Create`,
  environment lookup, hostname, `os.Args`) are passed in as explicit
  values/functions; the state transition applied between load and save is
  the pure function embedded here.
-/

/-- One recorded test step (`TestStep` in `main.go`): phase, status and
message strings stored verbatim, plus the UTC timestamp assigned at
recording time. -/
structure TestStep where
  phase : String
  status : String
  message : String
  timestamp : Int
deriving DecidableEq

/-- The `test_run` block of a report: start time, runner (hostname) and
optional project name.  Go's zero value for a missing project name is the
empty string, so `projectName = ""` models the absent field. -/
structure TestRun where
  startTime : Int
  runner : String
  projectName : String
deriving DecidableEq

/-- The `environment` block of a report: os, arch and shell strings. -/
structure Environment where
  os : String
  arch : String
  shell : String
deriving DecidableEq

/-- The `summary` block attached by `finalize` (the inline struct in
`main.go`). -/
structure Summary where
  endTime : Int
  duration : Int
  totalSteps : Nat
  passedSteps : Nat
  failedSteps : Nat
  overallStatus : String
  successRate : String
deriving DecidableEq

/-- The complete report document (`TestReport` in `main.go`).  The Go
`Summary` field is a nullable pointer, modelled as `Option`. -/
structure TestReport where
  testRun : TestRun
  environment : Environment
  steps : List TestStep
  summary : Option Summary
deriving DecidableEq

/-- `getEnvOrDefault` from `main.go`: the value of the environment variable
when non-empty, the default otherwise.  The process environment is passed
in as a lookup function (`os.Getenv` returns `""` for unset variables). -/
def getEnvOrDefault (getenv : String → String) (key defaultValue : String) : String :=
  if getenv key ≠ "" then getenv key else defaultValue

/-- Pure core of `initReport` from `main.go`: builds the fresh report from
the ambient inputs (environment lookup, hostname, `os.Args[0]`, the
optional project-name argument and the current time).  The Go code sets
`ProjectName` only when the argument is non-empty, which coincides with
storing the argument directly since the zero value is `""`. -/
def initReport (getenv : String → String) (hostname argv0 projectName : String)
    (now : Int) : TestReport :=
  { testRun := { startTime := now, runner := hostname, projectName := projectName }
    environment :=
      { os := getEnvOrDefault getenv "GOOS" "unknown"
        arch := getEnvOrDefault getenv "GOARCH" "unknown"
        shell := argv0 }
    steps := []
    summary := none }

/-- Pure core of `addStep` from `main.go`: append one step built verbatim
from the three CLI arguments, timestamped now.  Everything else in the
loaded report is carried over unchanged. -/
def addStep (report : TestReport) (phase status message : String) (now : Int) :
    TestReport :=
  { report with
    steps := report.steps ++ [{ phase := phase, status := status,
                                message := message, timestamp := now }] }

/-- The pass/fail tally loop of `finalizeReport`: a fold over the steps
incrementing the `passed` counter on `status == "passed"` and the `failed`
counter on `status == "failed"`, ignoring every other status string. -/
def tallySteps (steps : List TestStep) : Nat × Nat :=
  steps.foldl
    (fun counts step =>
      if step.status = "passed" then (counts.1 + 1, counts.2)
      else if step.status = "failed" then (counts.1, counts.2 + 1)
      else counts)
    (0, 0)

/-- Half-even rounding of the exact ratio `n / d` to an integer: the
quotient, bumped by one when the remainder exceeds half the divisor, and at
an exact half bumped only when needed to make the result even.  This is the
rounding performed at each binary64 rounding step below and by Go's
fixed-precision float formatting. -/
def roundHalfEvenDiv (n d : Nat) : Nat :=
  let q := n / d
  let r := n % d
  if 2 * r < d then q
  else if d < 2 * r then q + 1
  else if q % 2 = 0 then q else q + 1

/-- Floor of log base 2 by fuelled halving (`log2Floor n n` computes
`⌊log2 n⌋` for `n ≥ 1`); the explicit structural fuel keeps it reducible by
kernel computation. -/
def log2Floor : Nat → Nat → Nat
  | _, 0 => 0
  | 0, _ => 0
  | fuel + 1, n => if n < 2 then 0 else log2Floor fuel (n / 2) + 1

/-- Floor of log base 2 of a natural number (0 at 0). -/
def natLog2 (n : Nat) : Nat := log2Floor n n

/-- The exact rational value of a dyadic pair `(m, f)`, read as `m * 2^f`.
A non-negative binary64 double is represented exactly by such a pair
(zero as `m = 0`). -/
def dyadicVal (v : Nat × Int) : ℚ := (v.1 : ℚ) * 2 ^ v.2

/-- Round a dyadic value to 53 significant bits, ties to even: the binary64
rounding applied by every arithmetic operation and int-to-float conversion.
Values whose integer part is below `2^53` are exactly representable.  The
exponent is unbounded, matching IEEE binary64 wherever neither overflow nor
subnormal underflow occurs. -/
def float64Round (v : Nat × Int) : Nat × Int :=
  if v.1 < 2 ^ 53 then v
  else
    let s := natLog2 v.1 - 52
    (roundHalfEvenDiv v.1 (2 ^ s), v.2 + (s : Int))

/-- Correctly rounded binary64 quotient `RN(p / t)` of two naturals
(`t ≠ 0`): locate the leading binary digit of the exact quotient, scale it
to 53 bits and round half-even. -/
def floatDivNat (p t : Nat) : Nat × Int :=
  if p = 0 then (0, 0)
  else
    let a := natLog2 p
    let b := natLog2 t
    let e : Int :=
      if t * 2 ^ a ≤ p * 2 ^ b then (a : Int) - (b : Int) else (a : Int) - (b : Int) - 1
    let s : Int := 52 - e
    if 0 ≤ s then (roundHalfEvenDiv (p * 2 ^ s.toNat) t, e - 52)
    else (roundHalfEvenDiv p (t * 2 ^ (-s).toNat), e - 52)

/-- Correctly rounded binary64 quotient of two dyadic values. -/
def floatDivDyadic (x y : Nat × Int) : Nat × Int :=
  let d := floatDivNat x.1 y.1
  (d.1, d.2 + x.2 - y.2)

/-- The binary64 double computed by Go for
`float64(passed)/float64(total)*100`: convert both counts (exact below
`2^53`), divide with one binary64 rounding, then multiply by the exactly
representable 100 (exact product followed by one binary64 rounding). -/
def goPctDouble (passed total : Nat) : Nat × Int :=
  let xp := float64Round (passed, 0)
  let xt := float64Round (total, 0)
  let x1 := floatDivDyadic xp xt
  float64Round (x1.1 * 100, x1.2)

/-- Round a dyadic value to the nearest integer, ties to even — the integer
Go's `%.0f` verb prints for a non-negative double. -/
def dyadicRoundToInt (v : Nat × Int) : Nat :=
  if 0 ≤ v.2 then v.1 * 2 ^ v.2.toNat
  else roundHalfEvenDiv v.1 (2 ^ (-v.2).toNat)

/-- The integer printed by
`fmt.Sprintf("%.0f", float64(passed)/float64(total)*100)`. -/
def goPct (passed total : Nat) : Nat := dyadicRoundToInt (goPctDouble passed total)

/-- The `successRate` computation of `finalizeReport`: `"0%"` when there
are no steps, otherwise the binary64 percentage printed with `%.0f` and a
trailing `%`. -/
def successRate (passedSteps totalSteps : Nat) : String :=
  if totalSteps > 0 then toString (goPct passedSteps totalSteps) ++ "%"
  else "0%"

/-- Nanoseconds per second, for the duration computation. -/
def nanosecondsPerSecond : Int := 1000000000

/-- The `duration` computation of `finalizeReport`:
`int(endTime.Sub(report.TestRun.StartTime).Seconds())`, i.e. the signed
difference truncated toward zero to whole seconds (see the modelling note
in the header).  There is no clamping in the source. -/
def durationSeconds (endNs startNs : Int) : Int :=
  Int.tdiv (endNs - startNs) nanosecondsPerSecond

/-- The summary block computed by `finalizeReport` from the loaded steps,
the recorded start time and the current time. -/
def finalizeSummary (steps : List TestStep) (startNs endNs : Int) : Summary :=
  let totalSteps := steps.length
  let counts := tallySteps steps
  let passedSteps := counts.1
  let failedSteps := counts.2
  { endTime := endNs
    duration := durationSeconds endNs startNs
    totalSteps := totalSteps
    passedSteps := passedSteps
    failedSteps := failedSteps
    overallStatus := if failedSteps > 0 then "failed" else "passed"
    successRate := successRate passedSteps totalSteps }

/-- Pure core of `finalizeReport` from `main.go`: attach (or overwrite) the
summary derived from the current steps; every other field is carried over
unchanged. -/
def finalizeReport (report : TestReport) (now : Int) : TestReport :=
  { report with
    summary := some (finalizeSummary report.steps report.testRun.startTime now) }

/-- The fixed header line written by `writeReport` before the YAML body. -/
def reportHeader : String := "# E2E Test Report\n"

/-- The sequence of on-disk contents observable at `path` while
`writeReport` runs, given the previously persisted content `old` and the
serialized body `body` of the new document.  `writeReport` calls
`os.Create(path)` — which truncates the existing file in place — then
writes the header line, then encodes the YAML body into the same file.
The observable states are therefore: before the call; after `os.Create`
(empty file); after the header write; after the body is encoded. -/
def writeReportObservableContents (old body : String) : List String :=
  [old, "", reportHeader, reportHeader ++ body]

/-- One invocation of the `step` command: the three CLI arguments plus the
time at which the invocation happens. -/
structure StepCall where
  phase : String
  status : String
  message : String
  time : Int
deriving DecidableEq

/-- The step built by `addStep` from one `step` invocation. -/
def StepCall.toStep (c : StepCall) : TestStep :=
  { phase := c.phase, status := c.status, message := c.message, timestamp := c.time }

/-- A sequence of `step` invocations applied to a report, each one loading
the state left by the previous invocation (the persisted file is the only
state carried across processes, modelled by threading the report value). -/
def runSteps (report : TestReport) (calls : List StepCall) : TestReport :=
  calls.foldl (fun r c => addStep r c.phase c.status c.message c.time) report

/-- Value of one base64 alphabet character of Go's
`base64.StdEncoding` (`A-Z a-z 0-9 + /`); `none` for anything else,
including the padding character. -/
def base64Index (c : Char) : Option Nat :=
  let n := c.toNat
  if 65 ≤ n ∧ n ≤ 90 then some (n - 65)
  else if 97 ≤ n ∧ n ≤ 122 then some (n - 97 + 26)
  else if 48 ≤ n ∧ n ≤ 57 then some (n - 48 + 52)
  else if n = 43 then some 62
  else if n = 47 then some 63
  else none

/-- Core of `base64.StdEncoding.DecodeString` on a character list already
stripped of newlines: the input is consumed four characters at a time, each
quad contributing three bytes, with `=` padding allowed only in the last
one or two positions of the final quad (yielding two or one bytes); any
other shape is a decode error.  Bytes are `Nat` values below 256. -/
def base64DecodeChars : List Char → Option (List Nat)
  | [] => some []
  | c1 :: c2 :: c3 :: c4 :: rest =>
    match base64Index c1, base64Index c2 with
    | some i1, some i2 =>
      if c3 = '=' then
        if c4 = '=' ∧ rest = [] then some [i1 * 4 + i2 / 16]
        else none
      else
        match base64Index c3 with
        | some i3 =>
          if c4 = '=' then
            if rest = [] then some [i1 * 4 + i2 / 16, i2 % 16 * 16 + i3 / 4]
            else none
          else
            match base64Index c4 with
            | some i4 =>
              (base64DecodeChars rest).map
                (fun bs => (i1 * 4 + i2 / 16) :: (i2 % 16 * 16 + i3 / 4) ::
                           (i3 % 4 * 64 + i4) :: bs)
            | none => none
        | none => none
    | _, _ => none
  | _ => none
termination_by structural l => l

/-- `base64.StdEncoding.DecodeString` as used by `extractArtifacts`: Go's
decoder ignores carriage returns and newlines, then decodes the padded
quads. -/
def base64DecodeString (s : String) : Option (List Nat) :=
  base64DecodeChars (s.data.filter (fun c => c != '\x0d' && c != '\n'))

/-- Pure core of `extractArtifacts` (extended source file, `extract`
command): the payload's `artifacts` map is given as an association list of
(filename, base64 content) in iteration order.  An entry whose content is
`""` or the literal string `"null"` is skipped with a warning; otherwise
the content is base64-decoded and the bytes are written to the output
file named by the key.  A decode failure aborts the command with an error,
leaving the files already written in place.  The result is the list of
(filename, bytes) written, in order, paired with the error message if the
command failed. -/
def extractArtifacts : List (String × String) → List (String × List Nat) × Option String
  | [] => ([], none)
  | (filename, content) :: rest =>
    if content = "" ∨ content = "null" then extractArtifacts rest
    else
      match base64DecodeString content with
      | none => ([], some ("failed to decode artifact " ++ filename))
      | some bytes =>
        let r := extractArtifacts rest
        ((filename, bytes) :: r.1, r.2)

/-- A concrete report used to instantiate universally quantified theorems. -/
def sampleReport : TestReport :=
  { testRun := { startTime := 0, runner := "ci-host", projectName := "proj" }
    environment := { os := "linux", arch := "amd64", shell := "/usr/local/bin/home-ci-reporter" }
    steps := [{ phase := "build", status := "passed", message := "ok", timestamp := 1 },
              { phase := "test", status := "failed", message := "boom", timestamp := 2 }]
    summary := none }

/-! ## Helper lemmas -/

/-- The tally fold computes the two exact-match counts, shifted by the
accumulator. -/
lemma tallySteps_go (steps : List TestStep) (p f : Nat) :
    steps.foldl
      (fun counts step =>
        if step.status = "passed" then (counts.1 + 1, counts.2)
        else if step.status = "failed" then (counts.1, counts.2 + 1)
        else counts)
      (p, f)
      = (p + steps.countP (fun s => s.status == "passed"),
         f + steps.countP (fun s => s.status == "failed")) := by
  induction steps generalizing p f with
  | nil => simp
  | cons s rest ih =>
    simp only [List.foldl_cons, List.countP_cons]
    by_cases h1 : s.status = "passed"
    · have h2 : (s.status == "failed") = false := by rw [h1]; rfl
      have h3 : (s.status == "passed") = true := by rw [h1]; rfl
      rw [if_pos h1, ih, h2, h3]
      simp
      omega
    · by_cases h2 : s.status = "failed"
      · have hb1 : (s.status == "passed") = false := by rw [h2]; rfl
        have hb2 : (s.status == "failed") = true := by rw [h2]; rfl
        rw [if_neg h1, if_pos h2, ih, hb1, hb2]
        simp
        omega
      · have hb1 : (s.status == "passed") = false := by simp [h1]
        have hb2 : (s.status == "failed") = false := by simp [h2]
        rw [if_neg h1, if_neg h2, ih, hb1, hb2]
        simp

/-- `tallySteps` counts exact `"passed"`/`"failed"` matches. -/
lemma tallySteps_eq (steps : List TestStep) :
    tallySteps steps
      = (steps.countP (fun s => s.status == "passed"),
         steps.countP (fun s => s.status == "failed")) := by
  simpa [tallySteps] using tallySteps_go steps 0 0

/-- `runSteps` appends the submitted steps, in call order, verbatim. -/
lemma runSteps_steps (calls : List StepCall) (r : TestReport) :
    (runSteps r calls).steps = r.steps ++ calls.map StepCall.toStep := by
  induction calls generalizing r with
  | nil => simp [runSteps]
  | cons c rest ih =>
    simp only [runSteps, List.foldl_cons, List.map_cons] at *
    rw [ih]
    simp [addStep, StepCall.toStep]

/-- Truncated division toward zero by one billion (the nanoseconds-per-
second factor) is bracketed by the dividend: the bounds that characterise
Go's `int()` conversion of a seconds value. -/
lemma tdiv_trunc (a : ℤ) :
    (0 ≤ a → 1000000000 * a.tdiv 1000000000 ≤ a ∧
      a < 1000000000 * a.tdiv 1000000000 + 1000000000) ∧
    (a < 0 → 1000000000 * a.tdiv 1000000000 - 1000000000 < a ∧
      a ≤ 1000000000 * a.tdiv 1000000000) := by
  constructor
  · intro ha
    rw [Int.tdiv_eq_ediv ha (by omega)]
    omega
  · intro ha
    have hm : (0:ℤ) ≤ -a := by omega
    have h2 : (-(-a)).tdiv 1000000000 = -((-a).tdiv 1000000000) := Int.neg_tdiv (-a) _
    have h3 : (-a).tdiv 1000000000 = (-a) / 1000000000 := Int.tdiv_eq_ediv hm (by omega)
    have h4 : a.tdiv 1000000000 = -((-a) / 1000000000) := by rw [← h3, ← h2, neg_neg]
    rw [h4]
    omega

/-- The half-even rounded quotient is within half a unit of the exact
ratio `n / d`, stated in integer form: `2 * (m*d - n)` lies in `[-d, d]`. -/
lemma roundHalfEvenDiv_bound (n d : ℕ) (hd : 0 < d) :
    -(d:ℤ) ≤ 2 * ((roundHalfEvenDiv n d : ℤ) * d - n) ∧
    2 * ((roundHalfEvenDiv n d : ℤ) * d - n) ≤ (d:ℤ) := by
  have hdec : roundHalfEvenDiv n d =
      (if 2 * (n % d) < d then n / d
       else if d < 2 * (n % d) then n / d + 1
       else if (n / d) % 2 = 0 then n / d else n / d + 1) := rfl
  rw [hdec]
  have h1 : d * (n / d) + n % d = n := Nat.div_add_mod _ _
  have h2 : n % d < d := Nat.mod_lt _ hd
  generalize hq : n / d = q at h1 ⊢
  generalize hr : n % d = r at h1 h2 ⊢
  have h1z : (d:ℤ) * q + r = (n:ℤ) := by exact_mod_cast h1
  have h2z : (r:ℤ) < d := by exact_mod_cast h2
  have h0z : (0:ℤ) ≤ (r:ℤ) := Int.natCast_nonneg _
  split_ifs with ha hb hc
  · have haz : 2 * (r:ℤ) < d := by exact_mod_cast ha
    constructor <;> linarith
  · have hbz : (d:ℤ) < 2 * r := by exact_mod_cast hb
    constructor <;> (push_cast; linarith)
  · have heq : 2 * r = d := by omega
    have heqz : 2 * (r:ℤ) = d := by exact_mod_cast heq
    constructor <;> (push_cast; linarith)
  · have heq : 2 * r = d := by omega
    have heqz : 2 * (r:ℤ) = d := by exact_mod_cast heq
    constructor <;> (push_cast; linarith)

/-- The half-even rounded quotient is within half a unit of the exact
ratio, in rational form. -/
lemma roundHalfEvenDiv_nearest (n d : ℕ) (hd : 0 < d) :
    |((roundHalfEvenDiv n d : ℕ) : ℚ) - (n : ℚ) / (d : ℚ)| ≤ 1 / 2 := by
  have hb := roundHalfEvenDiv_bound n d hd
  have hdq : (0:ℚ) < (d:ℚ) := by exact_mod_cast hd
  set m := roundHalfEvenDiv n d with hm
  have expand : (m:ℚ) - (n:ℚ) / (d:ℚ) = ((m:ℚ) * d - (n:ℚ)) / (d:ℚ) := by
    field_simp
  have hbz : |(2:ℤ) * ((m:ℤ) * d - n)| ≤ (d:ℤ) := by
    rw [abs_le]
    exact ⟨by linarith [hb.1], by linarith [hb.2]⟩
  have hbq : |(2:ℚ) * ((m:ℚ) * d - n)| ≤ (d:ℚ) := by exact_mod_cast hbz
  have h2 : (2:ℚ) * |(m:ℚ) * d - (n:ℚ)| ≤ (d:ℚ) := by
    rwa [abs_mul, abs_two] at hbq
  rw [expand, abs_div, abs_of_pos hdq, div_le_iff₀ hdq]
  linarith

/-- Rounding a dyadic value to the nearest integer (ties to even) lands
within half a unit of the exact value. -/
lemma dyadicRoundToInt_nearest (v : ℕ × ℤ) :
    |((dyadicRoundToInt v : ℕ) : ℚ) - dyadicVal v| ≤ 1 / 2 := by
  unfold dyadicRoundToInt dyadicVal
  split_ifs with h
  · have hcast : ((v.1 * 2 ^ v.2.toNat : ℕ) : ℚ) = (v.1 : ℚ) * 2 ^ v.2 := by
      push_cast
      rw [← zpow_natCast (2:ℚ) v.2.toNat, Int.toNat_of_nonneg h]
    rw [hcast, sub_self, abs_zero]
    norm_num
  · have hkz : (((-v.2).toNat : ℕ) : ℤ) = -v.2 := Int.toNat_of_nonneg (by omega)
    have hneg : (2:ℚ) ^ v.2 = ((2:ℚ) ^ ((-v.2).toNat : ℕ))⁻¹ := by
      rw [← zpow_natCast (2:ℚ) ((-v.2).toNat), hkz, ← zpow_neg, neg_neg]
    rw [hneg, ← div_eq_mul_inv]
    have hmain := roundHalfEvenDiv_nearest v.1 (2 ^ (-v.2).toNat)
      (pow_pos (by norm_num) _)
    have hc : (((2:ℕ) ^ (-v.2).toNat : ℕ) : ℚ) = (2:ℚ) ^ ((-v.2).toNat : ℕ) := by
      push_cast
      ring
    rw [hc] at hmain
    exact hmain

/-! ## Claim theorems -/

/-- C1: the atomic-write claim fails on this code: `writeReport` truncates
the destination in place with `os.Create` before writing the new document,
so immediately after the truncation the observable file content is the
empty string — neither the previously persisted complete document nor the
new complete document — and after the header write it is the bare header.
A failure or crash at either point destroys the old content, contradicting
the program's own description ("atomic operations ensuring valid YAML at
all times") and the spec's temp-file-then-rename contract. -/
theorem c1_writeReport_truncates_in_place :
    "" ∈ writeReportObservableContents
        "# E2E Test Report\ntest_run:\n  runner: host\nsteps: []\n"
        "test_run:\n  runner: host\nsteps:\n  - phase: build\n" ∧
    "" ≠ "# E2E Test Report\ntest_run:\n  runner: host\nsteps: []\n" ∧
    "" ≠ reportHeader ++ "test_run:\n  runner: host\nsteps:\n  - phase: build\n" ∧
    reportHeader ∈ writeReportObservableContents
        "# E2E Test Report\ntest_run:\n  runner: host\nsteps: []\n"
        "test_run:\n  runner: host\nsteps:\n  - phase: build\n" ∧
    reportHeader ≠ "# E2E Test Report\ntest_run:\n  runner: host\nsteps: []\n" ∧
    reportHeader ≠ reportHeader ++ "test_run:\n  runner: host\nsteps:\n  - phase: build\n" := by
  decide

/-- C2 counterexample: with `start_time` 20 s and `end_time` 10 s (in
nanoseconds), the code computes `duration_seconds = -10`, not
`max(0, end - start) = 0` as the claim states. -/
theorem c2_counterexample :
    (finalizeSummary [] (20 * nanosecondsPerSecond) (10 * nanosecondsPerSecond)).duration
      = -10 ∧
    max 0 (durationSeconds (10 * nanosecondsPerSecond) (20 * nanosecondsPerSecond)) = 0 ∧
    (finalizeSummary [] (20 * nanosecondsPerSecond) (10 * nanosecondsPerSecond)).duration
      ≠ max 0 (durationSeconds (10 * nanosecondsPerSecond) (20 * nanosecondsPerSecond)) := by
  refine ⟨by decide, by decide, by decide⟩

/-- C2 amended: `duration_seconds` is the difference `end_time −
run.start_time` truncated toward zero to whole seconds, with no clamping:
it is non-negative when `end_time ≥ run.start_time` and negative whenever
`end_time` precedes `run.start_time` by at least one second. -/
theorem c2_duration_truncated_unclamped (steps : List TestStep) (startNs endNs : Int) :
    (finalizeSummary steps startNs endNs).duration = durationSeconds endNs startNs ∧
    (0 ≤ endNs - startNs →
      nanosecondsPerSecond * (finalizeSummary steps startNs endNs).duration
        ≤ endNs - startNs ∧
      endNs - startNs <
        nanosecondsPerSecond * (finalizeSummary steps startNs endNs).duration +
          nanosecondsPerSecond ∧
      0 ≤ (finalizeSummary steps startNs endNs).duration) ∧
    (endNs - startNs < 0 →
      nanosecondsPerSecond * (finalizeSummary steps startNs endNs).duration -
          nanosecondsPerSecond < endNs - startNs ∧
      endNs - startNs ≤ nanosecondsPerSecond * (finalizeSummary steps startNs endNs).duration) ∧
    (endNs - startNs ≤ -nanosecondsPerSecond →
      (finalizeSummary steps startNs endNs).duration < 0) := by
  have hd : (finalizeSummary steps startNs endNs).duration
      = Int.tdiv (endNs - startNs) 1000000000 := rfl
  have hn : nanosecondsPerSecond = 1000000000 := rfl
  have h := tdiv_trunc (endNs - startNs)
  rw [hd, hn]
  refine ⟨rfl, ?_, ?_, ?_⟩
  · intro h0
    obtain ⟨ha, hb2⟩ := h.1 h0
    exact ⟨ha, hb2, by omega⟩
  · intro h0
    exact h.2 h0
  · intro h0
    obtain ⟨ha, hb2⟩ := h.2 (by omega)
    omega

/-- C2 witness: a 2.5-second run truncates to 2 whole non-negative
seconds. -/
theorem c2_witness :
    nanosecondsPerSecond * (finalizeSummary [] 0 2500000000).duration ≤ 2500000000 - 0 ∧
    2500000000 - 0 <
      nanosecondsPerSecond * (finalizeSummary [] 0 2500000000).duration +
        nanosecondsPerSecond ∧
    0 ≤ (finalizeSummary [] 0 2500000000).duration :=
  (c2_duration_truncated_unclamped [] 0 2500000000).2.1 (by decide)

/-- C3 counterexample: at 23 passed of 40 total the exact percentage is
57.5, and `round(passed/total * 100)` is 58 under both standard tie
conventions (half-up, computed here as `(2*n + t) / (2*t)` in integer
arithmetic, and half-even, since 58 is even) — but the program prints
`"57%"`: the binary64 value of `float64(23)/float64(40)*100` is
57.49999999999999289…, strictly below the tie, so `%.0f` rounds down. -/
theorem c3_counterexample :
    successRate 23 40 = "57%" ∧
    (2 * (100 * 23) + 40) / (2 * 40) = 58 ∧
    successRate 23 40 ≠ toString ((2 * (100 * 23) + 40) / (2 * 40) : ℕ) ++ "%" := by
  refine ⟨by decide, by decide, by decide⟩

/-- C3 amended: `success_rate` is `"0%"` when there are no steps, and
otherwise the double-precision percentage `float64(passed)/float64(total)*100`
printed with `%.0f`: the nearest integer to the computed binary64 value
(ties to even), with a trailing `%`.  It is rounding, not truncation — 1 of
3 yields `"33%"` from 33.33 and 2 of 3 yields `"67%"`, not the truncated
`"66%"` — but it rounds the computed double, not the exact rational: where
the exact percentage is a half-integer the binary64 representation error
decides the direction, so 23 of 40 prints `"57%"` and 109 of 200 prints
`"55%"`. -/
theorem c3_success_rate_float_rounded (p t : ℕ) (ht : 0 < t) :
    (∃ n : ℕ, successRate p t = toString n ++ "%" ∧
      |(n : ℚ) - dyadicVal (goPctDouble p t)| ≤ 1 / 2) ∧
    successRate p 0 = "0%" ∧
    successRate 1 3 = "33%" ∧
    successRate 2 3 = "67%" ∧
    successRate 2 3 ≠ toString (100 * 2 / 3 : ℕ) ++ "%" ∧
    successRate 23 40 = "57%" ∧
    successRate 109 200 = "55%" := by
  refine ⟨⟨goPct p t, ?_, ?_⟩, by simp [successRate], by decide, by decide, by decide,
    by decide, by decide⟩
  · simp [successRate, ht]
  · exact dyadicRoundToInt_nearest (goPctDouble p t)

/-- C3 witness: at 23 passed of 40 total, the rate string is `"57%"`, the
nearest integer to the computed double. -/
theorem c3_witness :
    (∃ n : ℕ, successRate 23 40 = toString n ++ "%" ∧
      |(n : ℚ) - dyadicVal (goPctDouble 23 40)| ≤ 1 / 2) ∧
    successRate 23 0 = "0%" ∧
    successRate 1 3 = "33%" ∧
    successRate 2 3 = "67%" ∧
    successRate 2 3 ≠ toString (100 * 2 / 3 : ℕ) ++ "%" ∧
    successRate 23 40 = "57%" ∧
    successRate 109 200 = "55%" :=
  c3_success_rate_float_rounded 23 40 (by decide)

/-- C9: `extract` base64-decodes every non-empty, non-`"null"` artifact
entry and writes the decoded bytes to the named output file, while empty or
literal-`"null"` entries are skipped without failing the command; in
particular the `aGVsbG8=` payload entry produces a file with content
`hello` and a `"null"` entry produces no file and no error. -/
theorem c9_extract_decodes_or_skips (artifacts : List (String × String))
    (h : ∀ a ∈ artifacts, a.2 = "" ∨ a.2 = "null" ∨ (base64DecodeString a.2).isSome = true) :
    (extractArtifacts artifacts).2 = none ∧
    (extractArtifacts artifacts).1 = artifacts.filterMap
      (fun a => if a.2 = "" ∨ a.2 = "null" then none
                else (base64DecodeString a.2).map (fun bs => (a.1, bs))) ∧
    extractArtifacts [("a.txt", "aGVsbG8=")]
      = ([("a.txt", [104, 101, 108, 108, 111])], none) ∧
    String.mk ([104, 101, 108, 108, 111].map Char.ofNat) = "hello" ∧
    extractArtifacts [("x", "null")] = ([], none) := by
  have main : ∀ l : List (String × String),
      (∀ a ∈ l, a.2 = "" ∨ a.2 = "null" ∨ (base64DecodeString a.2).isSome = true) →
      (extractArtifacts l).2 = none ∧
      (extractArtifacts l).1 = l.filterMap
        (fun a => if a.2 = "" ∨ a.2 = "null" then none
                  else (base64DecodeString a.2).map (fun bs => (a.1, bs))) := by
    intro l
    induction l with
    | nil => intro _; exact ⟨rfl, rfl⟩
    | cons a rest ih =>
      intro hl
      have ha := hl a (by simp)
      have hrest := fun b hb => hl b (List.mem_cons_of_mem _ hb)
      obtain ⟨ih1, ih2⟩ := ih hrest
      obtain ⟨name, content⟩ := a
      by_cases hskip : content = "" ∨ content = "null"
      · have he : extractArtifacts ((name, content) :: rest) = extractArtifacts rest := by
          simp only [extractArtifacts]
          rw [if_pos hskip]
        refine ⟨by rw [he]; exact ih1, ?_⟩
        rw [he, ih2, List.filterMap_cons]
        simp [hskip]
      · have hsome : (base64DecodeString content).isSome = true := by
          rcases ha with ha | ha | ha
          · exact absurd (Or.inl ha) hskip
          · exact absurd (Or.inr ha) hskip
          · exact ha
        obtain ⟨bytes, heq⟩ := Option.isSome_iff_exists.mp hsome
        have he : extractArtifacts ((name, content) :: rest)
            = ((name, bytes) :: (extractArtifacts rest).1, (extractArtifacts rest).2) := by
          simp only [extractArtifacts]
          rw [if_neg hskip, heq]
        refine ⟨by rw [he]; exact ih1, ?_⟩
        rw [he]
        show (name, bytes) :: (extractArtifacts rest).1 = _
        rw [ih2, List.filterMap_cons]
        simp [hskip, heq]
  obtain ⟨m1, m2⟩ := main artifacts h
  exact ⟨m1, m2, by decide, by decide, by decide⟩

/-- C9 witness: the concrete `aGVsbG8=` payload satisfies the decodability
hypothesis and yields the decoded file list with no error. -/
theorem c9_witness :
    (extractArtifacts [("a.txt", "aGVsbG8=")]).2 = none ∧
    extractArtifacts [("x", "null")] = ([], none) := by
  have h := c9_extract_decodes_or_skips [("a.txt", "aGVsbG8=")] (by decide)
  exact ⟨h.1, h.2.2.2.2⟩

/-- C4: the summary computed by finalize has `overall_status = "failed"`
iff at least one step has status exactly `"failed"`, and `"passed"`
otherwise regardless of unrecognized statuses; `passed_steps` and
`failed_steps` count exact matches and `total_steps` is the full length. -/
theorem c4_overall_status_and_counts (steps : List TestStep) (startNs endNs : Int) :
    ((finalizeSummary steps startNs endNs).overallStatus = "failed" ↔
      ∃ s ∈ steps, s.status = "failed") ∧
    ((finalizeSummary steps startNs endNs).overallStatus = "passed" ↔
      ¬ ∃ s ∈ steps, s.status = "failed") ∧
    (finalizeSummary steps startNs endNs).passedSteps
      = steps.countP (fun s => s.status == "passed") ∧
    (finalizeSummary steps startNs endNs).failedSteps
      = steps.countP (fun s => s.status == "failed") ∧
    (finalizeSummary steps startNs endNs).totalSteps = steps.length := by
  have ht := tallySteps_eq steps
  have h1p : (tallySteps steps).1 = steps.countP (fun s => s.status == "passed") := by
    rw [ht]
  have h2f : (tallySteps steps).2 = steps.countP (fun s => s.status == "failed") := by
    rw [ht]
  have ho : (finalizeSummary steps startNs endNs).overallStatus
      = (if (tallySteps steps).2 > 0 then "failed" else "passed") := rfl
  have hp : (finalizeSummary steps startNs endNs).passedSteps = (tallySteps steps).1 := rfl
  have hf : (finalizeSummary steps startNs endNs).failedSteps = (tallySteps steps).2 := rfl
  have hiff : (0 < steps.countP (fun s => s.status == "failed")) ↔
      ∃ s ∈ steps, s.status = "failed" := by
    rw [List.countP_pos_iff]
    simp
  refine ⟨?_, ?_, by rw [hp, h1p], by rw [hf, h2f], rfl⟩
  · rw [ho, h2f]
    by_cases hpos : 0 < steps.countP (fun s => s.status == "failed")
    · rw [if_pos hpos]
      exact iff_of_true rfl (hiff.mp hpos)
    · rw [if_neg hpos]
      exact iff_of_false (by decide) (fun hx => hpos (hiff.mpr hx))
  · rw [ho, h2f]
    by_cases hpos : 0 < steps.countP (fun s => s.status == "failed")
    · rw [if_pos hpos]
      exact iff_of_false (by decide) (fun hx => hx (hiff.mp hpos))
    · rw [if_neg hpos]
      exact iff_of_true rfl (fun hx => hpos (hiff.mpr hx))

/-- C5: N successful step calls on a freshly init-ed report produce exactly
the N submitted steps in call order, verbatim; each `addStep` appends one
element at the end and `finalizeReport` never touches the steps, so the
sequence never shrinks or reorders. -/
theorem c5_steps_in_order (getenv : String → String)
    (hostname argv0 projectName : String) (t0 : Int) (calls : List StepCall)
    (r : TestReport) (c : StepCall) (now : Int) :
    (runSteps (initReport getenv hostname argv0 projectName t0) calls).steps
      = calls.map StepCall.toStep ∧
    (runSteps (initReport getenv hostname argv0 projectName t0) calls).steps.length
      = calls.length ∧
    (addStep r c.phase c.status c.message c.time).steps = r.steps ++ [c.toStep] ∧
    (finalizeReport r now).steps = r.steps := by
  have h := runSteps_steps calls (initReport getenv hostname argv0 projectName t0)
  have hinit : (initReport getenv hostname argv0 projectName t0).steps = [] := rfl
  rw [hinit] at h
  simp only [List.nil_append] at h
  refine ⟨h, by rw [h, List.length_map], rfl, rfl⟩

/-- C6: finalize is idempotent with respect to steps: re-finalizing an
already finalized report is a total operation that re-derives the summary
from the unchanged steps, so two consecutive finalize calls agree on every
summary field except possibly `end_time` and `duration_seconds`. -/
theorem c6_finalize_idempotent_on_steps (r : TestReport) (t1 t2 : Int) :
    (finalizeReport (finalizeReport r t1) t2).steps = r.steps ∧
    ((finalizeReport (finalizeReport r t1) t2).summary).isSome = true ∧
    ∀ s1 s2 : Summary,
      (finalizeReport r t1).summary = some s1 →
      (finalizeReport (finalizeReport r t1) t2).summary = some s2 →
      s2.totalSteps = s1.totalSteps ∧ s2.passedSteps = s1.passedSteps ∧
      s2.failedSteps = s1.failedSteps ∧ s2.overallStatus = s1.overallStatus ∧
      s2.successRate = s1.successRate := by
  refine ⟨rfl, rfl, ?_⟩
  intro s1 s2 h1 h2
  have e1 : s1 = finalizeSummary r.steps r.testRun.startTime t1 :=
    (Option.some_injective _ h1.symm)
  have e2 : s2 = finalizeSummary r.steps r.testRun.startTime t2 :=
    (Option.some_injective _ h2.symm)
  subst e1 e2
  exact ⟨rfl, rfl, rfl, rfl, rfl⟩

/-- C6 witness: finalizing the sample report twice (at times 0 and 5)
yields identical derived summary fields. -/
theorem c6_witness :
    (finalizeSummary sampleReport.steps sampleReport.testRun.startTime 5).totalSteps
      = (finalizeSummary sampleReport.steps sampleReport.testRun.startTime 0).totalSteps ∧
    (finalizeSummary sampleReport.steps sampleReport.testRun.startTime 5).passedSteps
      = (finalizeSummary sampleReport.steps sampleReport.testRun.startTime 0).passedSteps ∧
    (finalizeSummary sampleReport.steps sampleReport.testRun.startTime 5).failedSteps
      = (finalizeSummary sampleReport.steps sampleReport.testRun.startTime 0).failedSteps ∧
    (finalizeSummary sampleReport.steps sampleReport.testRun.startTime 5).overallStatus
      = (finalizeSummary sampleReport.steps sampleReport.testRun.startTime 0).overallStatus ∧
    (finalizeSummary sampleReport.steps sampleReport.testRun.startTime 5).successRate
      = (finalizeSummary sampleReport.steps sampleReport.testRun.startTime 0).successRate :=
  (c6_finalize_idempotent_on_steps sampleReport 0 5).2.2 _ _ rfl rfl

/-- C7: `addStep` changes only the steps sequence, appending exactly one
element, and `finalizeReport` changes only the summary, leaving run
metadata, environment and steps untouched; already appended steps survive
unchanged (the old sequence is the prefix of the new one). -/
theorem c7_frame (r : TestReport) (phase status message : String) (tm now : Int) :
    (addStep r phase status message tm).testRun = r.testRun ∧
    (addStep r phase status message tm).environment = r.environment ∧
    (addStep r phase status message tm).summary = r.summary ∧
    (addStep r phase status message tm).steps
      = r.steps ++ [{ phase := phase, status := status, message := message,
                      timestamp := tm }] ∧
    List.take r.steps.length (addStep r phase status message tm).steps = r.steps ∧
    (finalizeReport r now).testRun = r.testRun ∧
    (finalizeReport r now).environment = r.environment ∧
    (finalizeReport r now).steps = r.steps ∧
    (finalizeReport r now).summary
      = some (finalizeSummary r.steps r.testRun.startTime now) := by
  refine ⟨rfl, rfl, rfl, rfl, ?_, rfl, rfl, rfl, rfl⟩
  have : (addStep r phase status message tm).steps
      = r.steps ++ [{ phase := phase, status := status, message := message,
                      timestamp := tm }] := rfl
  rw [this, List.take_left]

/-- C8: `init` does populate `run.runner` from the host identifier,
`environment.shell` from the program's own path, and creates empty steps
with no summary — but `environment.os`/`environment.arch` come from the
`GOOS`/`GOARCH` environment variables (cross-compilation variables,
normally unset at runtime) with fallback `"unknown"`, not from the
execution platform: on a linux/amd64 host with those variables unset the
stored identifiers are the literal `"unknown"`. -/
theorem c8_env_from_goos_not_platform :
    (initReport (fun _ => "") "ci-host" "/usr/local/bin/home-ci-reporter" "proj" 0).environment.os
      = "unknown" ∧
    (initReport (fun _ => "") "ci-host" "/usr/local/bin/home-ci-reporter" "proj" 0).environment.arch
      = "unknown" ∧
    (initReport (fun _ => "") "ci-host" "/usr/local/bin/home-ci-reporter" "proj" 0).environment.shell
      = "/usr/local/bin/home-ci-reporter" ∧
    (initReport (fun _ => "") "ci-host" "/usr/local/bin/home-ci-reporter" "proj" 0).testRun.runner
      = "ci-host" ∧
    (initReport (fun _ => "") "ci-host" "/usr/local/bin/home-ci-reporter" "proj" 0).steps = [] ∧
    (initReport (fun _ => "") "ci-host" "/usr/local/bin/home-ci-reporter" "proj" 0).summary
      = none ∧
    ("unknown" ≠ "linux" ∧ "unknown" ≠ "amd64") := by
  refine ⟨rfl, rfl, rfl, rfl, rfl, rfl, by decide⟩

/-- C10: when the loaded report has no steps (a document without a `steps`
key unmarshals to a nil slice, modelled as the empty list), `step` does not
fail: appending to the empty sequence yields exactly the one new step. -/
theorem c10_step_on_absent_steps (r : TestReport) (phase status message : String)
    (now : Int) (h : r.steps = []) :
    (addStep r phase status message now).steps
      = [{ phase := phase, status := status, message := message, timestamp := now }] ∧
    (addStep r phase status message now).steps.length = 1 := by
  constructor
  · show r.steps ++ [_] = _
    rw [h, List.nil_append]
  · show (r.steps ++ [_]).length = 1
    rw [h, List.nil_append, List.length_singleton]

/-- C10 witness: a concrete report with an absent (nil) steps sequence
gains exactly the one recorded step. -/
theorem c10_witness :
    (addStep { testRun := { startTime := 0, runner := "h", projectName := "" }
               environment := { os := "linux", arch := "arm64", shell := "/bin/r" }
               steps := [], summary := none } "build" "passed" "ok" 3).steps
      = [{ phase := "build", status := "passed", message := "ok", timestamp := 3 }] ∧
    (addStep { testRun := { startTime := 0, runner := "h", projectName := "" }
               environment := { os := "linux", arch := "arm64", shell := "/bin/r" }
               steps := [], summary := none } "build" "passed" "ok" 3).steps.length = 1 :=
  c10_step_on_absent_steps _ "build" "passed" "ok" 3 rfl
